import Mathlib

/-!
Shallow embedding of `update-dependencies.py` (flathub/de.mediathekview.MediathekView).

Python strings are modelled as `List Char`; fallible Python code (raising
`LookupError`, `ValueError`, `IndexError`, `FileNotFoundError`) is modelled
with `Except PyErr`.  The filesystem accesses of `create_flatpak_source`
(reading artifact bytes, globbing a directory) are modelled by an explicit
`FS` value listing files with their byte contents, in directory-scan order.
-/

/-- Python `str`, modelled as a list of characters. -/
abbrev Str := List Char

/-- Whitespace characters recognised by Python's `str.strip()` (the code points
for which `str.isspace()` holds). -/
def isPySpace (c : Char) : Bool :=
  (9 ≤ c.toNat ∧ c.toNat ≤ 13) ∨ (28 ≤ c.toNat ∧ c.toNat ≤ 31) ∨ c.toNat = 32 ∨
    c.toNat = 0x85 ∨ c.toNat = 0xa0 ∨ c.toNat = 0x1680 ∨
    (0x2000 ≤ c.toNat ∧ c.toNat ≤ 0x200a) ∨ c.toNat = 0x2028 ∨ c.toNat = 0x2029 ∨
    c.toNat = 0x202f ∨ c.toNat = 0x205f ∨ c.toNat = 0x3000

/-- Strip characters satisfying `p` from both ends of a string, like Python's
`str.strip(chars)`. -/
def stripBy (p : Char → Bool) (s : Str) : Str :=
  ((s.dropWhile p).reverse.dropWhile p).reverse

/-- Python `str.strip()` (no argument): strip whitespace from both ends. -/
def pyStrip (s : Str) : Str := stripBy isPySpace s

/-- Python `str.strip("'\"")`: strip single and double quotes from both ends. -/
def stripQuotes (s : Str) : Str :=
  stripBy (fun c => c.toNat = 39 ∨ c.toNat = 34) s

/-- Line-boundary characters of Python's `str.splitlines()`. -/
def isLineBoundary (c : Char) : Bool :=
  c.toNat = 10 ∨ c.toNat = 13 ∨ c.toNat = 11 ∨ c.toNat = 12 ∨ c.toNat = 28 ∨
    c.toNat = 29 ∨ c.toNat = 30 ∨ c.toNat = 0x85 ∨ c.toNat = 0x2028 ∨ c.toNat = 0x2029

/-- Worker for `splitlines`: `cur` is the current line accumulated in reverse.
A line boundary at the very end of the input does not open a final empty line,
matching Python's `str.splitlines()`. -/
def splitlinesGo (cur : Str) : Str → List Str
  | [] => [cur.reverse]
  | c :: d :: rest =>
    if c.toNat = 13 ∧ d.toNat = 10 then
      match rest with
      | [] => [cur.reverse]
      | _ => cur.reverse :: splitlinesGo [] rest
    else if isLineBoundary c then
      cur.reverse :: splitlinesGo [] (d :: rest)
    else
      splitlinesGo (c :: cur) (d :: rest)
  | [c] =>
    if isLineBoundary c then [cur.reverse] else [(c :: cur).reverse]

/-- Python `str.splitlines()`: split at line boundaries (`\r\n` counts as a
single boundary), with no trailing empty line; the empty string gives `[]`. -/
def splitlines (s : Str) : List Str :=
  match s with
  | [] => []
  | _ => splitlinesGo [] s

/-- Everything after the first colon of `s`; the model of
`s.split(":", maxsplit=1)[1]` when `s` is known to contain a colon. -/
def afterColon (s : Str) : Str :=
  (s.dropWhile (fun c => c ≠ ':')).drop 1

/-- Python exceptions raised by the modelled code. -/
inductive PyErr where
  | lookupError (msg : Str)
  | valueError (msg : Str)
  | indexError
  | fileNotFound
deriving DecidableEq, Repr

/-- Python `s.split(":", maxsplit=1)[1]`: raises `IndexError` when `s` has no
colon. -/
def splitAfterColon (s : Str) : Except PyErr Str :=
  if s.contains ':' then .ok (afterColon s) else .error .indexError

/-- A git source in a flatpak manifest (class `FlatpakGitSource`). -/
structure FlatpakGitSource where
  url : Str
  commit : Str
deriving DecidableEq, Repr

/-- A flatpak file source (class `FlatpakFileSource`). -/
structure FlatpakFileSource where
  url : Str
  dest : Str
  dest_filename : Str
  sha512 : Str
deriving DecidableEq, Repr

/-- A flatpak SDK by name and version (class `FlatpakSdk`). -/
structure FlatpakSdk where
  name : Str
  version : Str
deriving DecidableEq, Repr

/-- One line of `FlatpakSdk.parse_from_manifest`'s loop body acting on the
`(name, version)` state: `if line.startswith("sdk:")` updates `name` with the
whitespace-stripped value after the first colon, `elif
line.startswith("runtime-version")` updates `version` with the value after the
first colon, whitespace- then quote-stripped (raising `IndexError` when that
line has no colon). -/
def sdkStep (name version : Option Str) (line : Str) :
    Except PyErr (Option Str × Option Str) :=
  if "sdk:".data.isPrefixOf line then
    (splitAfterColon line).map (fun v => (some (pyStrip v), version))
  else if "runtime-version".data.isPrefixOf line then
    (splitAfterColon line).map (fun v => (name, some (stripQuotes (pyStrip v))))
  else
    .ok (name, version)

/-- The loop of `FlatpakSdk.parse_from_manifest`: scan lines updating the state
with `sdkStep`, and return as soon as both `name` and `version` are truthy
(set and non-empty, Python's `if name and version`); raise `LookupError` when
the lines run out. -/
def sdkScan (name version : Option Str) : List Str → Except PyErr FlatpakSdk
  | [] => .error (.lookupError "Failed to find sdk or runtime-version in manifest".data)
  | line :: rest =>
    match sdkStep name version line with
    | .error e => .error e
    | .ok (n, v) =>
      match n, v with
      | some ns, some vs =>
        if ns ≠ [] ∧ vs ≠ [] then .ok ⟨ns, vs⟩ else sdkScan (some ns) (some vs) rest
      | n, v => sdkScan n v rest

/-- Model of `FlatpakSdk.parse_from_manifest`. -/
def FlatpakSdk.parse_from_manifest (manifest : Str) : Except PyErr FlatpakSdk :=
  sdkScan none none (splitlines manifest)

/-- Known base URLs of Maven repositories used by MediathekView (`REPO_BASES`). -/
def REPO_BASES : List Str :=
  ["https://repo.maven.apache.org/maven2/".data,
   "https://oss.sonatype.org/content/repositories/snapshots/".data,
   "https://maven.ej-technologies.com/repository/".data]

/-- A maven artifact URL (class `ArtifactUrl`). -/
structure ArtifactUrl where
  url : Str
  repo_base_url : Str
  relpath : Str
deriving DecidableEq, Repr

/-- Message suffix of the `ValueError` raised by `ArtifactUrl.parse_url`. -/
def notKnownMsg : Str := " is not from a known Maven repository".data

/-- Model of `ArtifactUrl.parse_url`: take the first base of `REPO_BASES` that
`url` starts with and split the URL there; raise `ValueError` naming the URL
when no base matches. -/
def ArtifactUrl.parse_url (url : Str) : Except PyErr ArtifactUrl :=
  match REPO_BASES.find? (fun base => base.isPrefixOf url) with
  | some base => .ok { url := url, repo_base_url := base, relpath := url.drop base.length }
  | none => .error (.valueError (url ++ notKnownMsg))

/-- The stripped module-marker line sought by `find_mediathekview_source`. -/
def nameMarker : Str := "- name: mediathekview".data

/-- The stripped git-source-marker line sought by `find_mediathekview_source`. -/
def gitMarker : Str := "- type: git".data

/-- Value update performed by the third loop of `find_mediathekview_source` on
one line: the line is stripped first; a `url:`-prefixed line updates `url`,
otherwise (`elif`) a `commit:`-prefixed line updates `commit`; both values are
the whitespace-stripped text after the first colon. -/
def ucStep (url commit : Option Str) (line : Str) : Option Str × Option Str :=
  if "url:".data.isPrefixOf (pyStrip line) then
    (some (pyStrip (afterColon (pyStrip line))), commit)
  else if "commit:".data.isPrefixOf (pyStrip line) then
    (url, some (pyStrip (afterColon (pyStrip line))))
  else
    (url, commit)

/-- The third loop of `find_mediathekview_source`: scan lines updating the
state with `ucStep` and return as soon as both `url` and `commit` are truthy
(Python's `if url and commit`); raise `LookupError` when the lines run out. -/
def ucScan (url commit : Option Str) : List Str → Except PyErr FlatpakGitSource
  | [] => .error (.lookupError "url or commit not found in main mediathekview source".data)
  | line :: rest =>
    match ucStep url commit line with
    | (some us, some cs) =>
      if us ≠ [] ∧ cs ≠ [] then .ok ⟨us, cs⟩ else ucScan (some us) (some cs) rest
    | (u, c) => ucScan u c rest

/-- Model of `find_mediathekview_source`.  Each of the three `for line in
lines` loops iterates the whole `lines` list from its beginning: the first two
loops only test whether some line strips to the module marker or to the
git-source marker (`break`/`else: raise`), and the third collects `url` and
`commit`. -/
def find_mediathekview_source (manifest : Str) : Except PyErr FlatpakGitSource :=
  let lines := splitlines manifest
  if lines.any (fun l => pyStrip l = nameMarker) then
    if lines.any (fun l => pyStrip l = gitMarker) then
      ucScan none none lines
    else .error (.lookupError "git source not found".data)
  else .error (.lookupError "mediathekview module not found".data)

/-- Attempt of the regex fragment `(https?://[^ ]+)` at the start of `s`:
the greedy `https?` tries the `https` scheme first, and `[^ ]+` greedily takes
the maximal non-empty run of non-space characters. Returns the captured
group. -/
def urlTokenAt (s : Str) : Option Str :=
  if "https://".data.isPrefixOf s then
    if (s.drop 8).takeWhile (fun c => c ≠ ' ') = [] then none
    else some ("https://".data ++ (s.drop 8).takeWhile (fun c => c ≠ ' '))
  else if "http://".data.isPrefixOf s then
    if (s.drop 7).takeWhile (fun c => c ≠ ' ') = [] then none
    else some ("http://".data ++ (s.drop 7).takeWhile (fun c => c ≠ ' '))
  else none

/-- Attempt of the regex fragment `: (https?://[^ ]+)` at the start of `s`. -/
def colonUrlAt (s : Str) : Option Str :=
  match s with
  | c :: d :: rest => if c = ':' ∧ d = ' ' then urlTokenAt rest else none
  | _ => none

/-- Match of `.*: (https?://[^ ]+)` against the whole of `s`: the greedy `.*`
makes the regex engine take the last position of `s` where `: (https?://[^ ]+)`
matches. -/
def lastColonUrl : Str → Option Str
  | [] => none
  | c :: rest =>
    match lastColonUrl rest with
    | some tok => some tok
    | none => colonUrlAt (c :: rest)

/-- Model of `DOWNLOADED_RE.search(line).group(1)` for
`DOWNLOADED_RE = re.compile("Downloaded from .*: (https?://[^ ]+)")`:
`re.search` anchors the match at the earliest position where the whole pattern
can match, i.e. the earliest occurrence of the literal `Downloaded from `
followed somewhere later by `: ` and a URL token. -/
def m2Search : Str → Option Str
  | [] => none
  | c :: rest =>
    match
      (if "Downloaded from ".data.isPrefixOf (c :: rest) then
        lastColonUrl ((c :: rest).drop 16)
      else none) with
    | some tok => some tok
    | none => m2Search rest

/-- The loop body of `extract_downloaded_artifacts` over the remaining lines:
every line whose regex search succeeds contributes `ArtifactUrl.parse_url` of
the captured URL; a `ValueError` from `parse_url` aborts the whole
extraction (the generator raises when it is drained). -/
def extractGo : List Str → Except PyErr (List ArtifactUrl)
  | [] => .ok []
  | line :: rest =>
    match m2Search line with
    | none => extractGo rest
    | some tok =>
      match ArtifactUrl.parse_url tok with
      | .error e => .error e
      | .ok a =>
        match extractGo rest with
        | .error e => .error e
        | .ok l => .ok (a :: l)

/-- Model of `extract_downloaded_artifacts` (the generator, fully drained). -/
def extract_downloaded_artifacts (build_log : Str) : Except PyErr (List ArtifactUrl) :=
  extractGo (splitlines build_log)

/-- Split a string at every occurrence of `sep` (worker; `cur` is reversed). -/
def splitOnCharGo (sep : Char) (cur : Str) : Str → List Str
  | [] => [cur.reverse]
  | c :: rest =>
    if c = sep then cur.reverse :: splitOnCharGo sep [] rest
    else splitOnCharGo sep (c :: cur) rest

/-- Path-segment view of a POSIX path string: `pathlib.PurePosixPath` collapses
spurious slashes and single dots, so the segments are the slash-separated
pieces that are neither empty nor `.`. -/
def toSegments (s : Str) : List Str :=
  (splitOnCharGo '/' [] s).filter (fun seg => seg ≠ [] ∧ seg ≠ ".".data)

/-- Render path segments back to a POSIX path string
(`PurePosixPath.as_posix()` for a relative path with at least one segment). -/
def renderPosix (segs : List Str) : Str :=
  (List.intersperse "/".data segs).foldr (fun x acc => x ++ acc) []

/-- A filesystem: the files below the local repository directory, as full path
segment lists with byte contents, listed in directory-scan order (the order
`glob.glob` reports names in). -/
structure FS where
  files : List (List Str × List Nat)

/-- Bytes of the file at path `p` (`Path.read_bytes`), when it exists. -/
def FS.readBytes (fs : FS) (p : List Str) : Option (List Nat) :=
  (fs.files.find? (fun e => decide (e.1 = p))).map (fun e => e.2)

/-- Names of the files directly inside directory `d`, in scan order. -/
def FS.dirNames (fs : FS) (d : List Str) : List Str :=
  fs.files.filterMap (fun e =>
    if e.1.dropLast = d ∧ e.1 ≠ [] then e.1.getLast? else none)

/-- Match of a file name against the wildcard pattern `maven-metadata-*.xml`
(`fnmatch` semantics: literal prefix, literal suffix, `*` matches any
sequence). -/
def matchesMetaGlob (name : Str) : Bool :=
  "maven-metadata-".data.isPrefixOf name ∧ ".xml".data.isSuffixOf (name.drop 15)

/-- Truncation of a `Nat` to a 64-bit machine word. -/
def w64 (n : Nat) : Nat := n % 18446744073709551616

/-- Rotate a 64-bit word right by `k` bits. -/
def rotr64 (k n : Nat) : Nat := w64 ((n >>> k) ||| (n <<< (64 - k)))

/-- SHA-512 choose function. -/
def shaCh (x y z : Nat) : Nat := (x &&& y) ^^^ ((x ^^^ 18446744073709551615) &&& z)

/-- SHA-512 majority function. -/
def shaMaj (x y z : Nat) : Nat := (x &&& y) ^^^ (x &&& z) ^^^ (y &&& z)

/-- SHA-512 big sigma 0. -/
def bSig0 (x : Nat) : Nat := rotr64 28 x ^^^ rotr64 34 x ^^^ rotr64 39 x

/-- SHA-512 big sigma 1. -/
def bSig1 (x : Nat) : Nat := rotr64 14 x ^^^ rotr64 18 x ^^^ rotr64 41 x

/-- SHA-512 small sigma 0. -/
def sSig0 (x : Nat) : Nat := rotr64 1 x ^^^ rotr64 8 x ^^^ (x >>> 7)

/-- SHA-512 small sigma 1. -/
def sSig1 (x : Nat) : Nat := rotr64 19 x ^^^ rotr64 61 x ^^^ (x >>> 6)

/-- SHA-512 round constants (FIPS 180-4). -/
def sha512K : List Nat :=
  [4794697086780616226, 8158064640168781261, 13096744586834688815,
   16840607885511220156, 4131703408338449720, 6480981068601479193,
   10538285296894168987, 12329834152419229976, 15566598209576043074,
   1334009975649890238, 2608012711638119052, 6128411473006802146,
   8268148722764581231, 9286055187155687089, 11230858885718282805,
   13951009754708518548, 16472876342353939154, 17275323862435702243,
   1135362057144423861, 2597628984639134821, 3308224258029322869,
   5365058923640841347, 6679025012923562964, 8573033837759648693,
   10970295158949994411, 12119686244451234320, 12683024718118986047,
   13788192230050041572, 14330467153632333762, 15395433587784984357,
   489312712824947311, 1452737877330783856, 2861767655752347644,
   3322285676063803686, 5560940570517711597, 5996557281743188959,
   7280758554555802590, 8532644243296465576, 9350256976987008742,
   10552545826968843579, 11727347734174303076, 12113106623233404929,
   14000437183269869457, 14369950271660146224, 15101387698204529176,
   15463397548674623760, 17586052441742319658, 1182934255886127544,
   1847814050463011016, 2177327727835720531, 2830643537854262169,
   3796741975233480872, 4115178125766777443, 5681478168544905931,
   6601373596472566643, 7507060721942968483, 8399075790359081724,
   8693463985226723168, 9568029438360202098, 10144078919501101548,
   10430055236837252648, 11840083180663258601, 13761210420658862357,
   14299343276471374635, 14566680578165727644, 15097957966210449927,
   16922976911328602910, 17689382322260857208, 500013540394364858,
   748580250866718886, 1242879168328830382, 1977374033974150939,
   2944078676154940804, 3659926193048069267, 4368137639120453308,
   4836135668995329356, 5532061633213252278, 6448918945643986474,
   6902733635092675308, 7801388544844847127]

/-- SHA-512 initial hash value (FIPS 180-4). -/
def sha512IV : List Nat :=
  [7640891576956012808, 13503953896175478587, 4354685564936845355,
   11912009170470909681, 5840696475078001361, 11170449401992604703,
   2270897969802886507, 6620516959819538809]

/-- Next word of the SHA-512 message schedule, from the words so far. -/
def schedNext (w : List Nat) : Nat :=
  let t := w.length
  w64 (sSig1 (w.getD (t - 2) 0) + w.getD (t - 7) 0 + sSig0 (w.getD (t - 15) 0) + w.getD (t - 16) 0)

/-- Extend the message schedule by `n` further words. -/
def schedExtend : Nat → List Nat → List Nat
  | 0, w => w
  | n + 1, w => schedExtend n (w ++ [schedNext w])

/-- Working state of one SHA-512 compression. -/
structure Sha512State where
  a : Nat
  b : Nat
  c : Nat
  d : Nat
  e : Nat
  f : Nat
  g : Nat
  h : Nat
deriving Repr

/-- One SHA-512 round, consuming one `(schedule word, round constant)` pair. -/
def shaRound (s : Sha512State) (wk : Nat × Nat) : Sha512State :=
  let t1 := w64 (s.h + bSig1 s.e + shaCh s.e s.f s.g + wk.2 + wk.1)
  let t2 := w64 (bSig0 s.a + shaMaj s.a s.b s.c)
  ⟨w64 (t1 + t2), s.a, s.b, s.c, w64 (s.d + t1), s.e, s.f, s.g⟩

/-- Decode big-endian 64-bit words from bytes. -/
def bytesToWords64 : List Nat → List Nat
  | b0 :: b1 :: b2 :: b3 :: b4 :: b5 :: b6 :: b7 :: rest =>
    (((((((b0 * 256 + b1) * 256 + b2) * 256 + b3) * 256 + b4) * 256 + b5) * 256 + b6) * 256 + b7)
      :: bytesToWords64 rest
  | _ => []

/-- Big-endian byte encoding of `n` in exactly `k` bytes. -/
def toBytesBE : Nat → Nat → List Nat
  | 0, _ => []
  | k + 1, n => toBytesBE k (n / 256) ++ [n % 256]

/-- One SHA-512 compression of a 128-byte block into the 8-word hash state. -/
def compressBlock (hs : List Nat) (block : List Nat) : List Nat :=
  let ws := schedExtend 64 (bytesToWords64 block)
  let s0 : Sha512State :=
    ⟨hs.getD 0 0, hs.getD 1 0, hs.getD 2 0, hs.getD 3 0,
     hs.getD 4 0, hs.getD 5 0, hs.getD 6 0, hs.getD 7 0⟩
  let s := (ws.zip sha512K).foldl shaRound s0
  [w64 (hs.getD 0 0 + s.a), w64 (hs.getD 1 0 + s.b), w64 (hs.getD 2 0 + s.c),
   w64 (hs.getD 3 0 + s.d), w64 (hs.getD 4 0 + s.e), w64 (hs.getD 5 0 + s.f),
   w64 (hs.getD 6 0 + s.g), w64 (hs.getD 7 0 + s.h)]

/-- SHA-512 padding: append `0x80`, zeros up to 112 mod 128, and the 16-byte
big-endian bit length. -/
def padMessage (msg : List Nat) : List Nat :=
  let padLen := (128 + 112 - (msg.length + 1) % 128) % 128
  msg ++ 0x80 :: (List.replicate padLen 0 ++ toBytesBE 16 (msg.length * 8))

/-- Split a byte list into 128-byte blocks (the first argument is fuel, any
bound of the number of blocks). -/
def chunksGo : Nat → List Nat → List (List Nat)
  | 0, _ => []
  | _ + 1, [] => []
  | fuel + 1, l => l.take 128 :: chunksGo fuel (l.drop 128)

/-- SHA-512 digest bytes of a byte string. -/
def sha512bytes (msg : List Nat) : List Nat :=
  let padded := padMessage msg
  let final := (chunksGo padded.length padded).foldl compressBlock sha512IV
  final.foldr (fun w acc => toBytesBE 8 w ++ acc) []

/-- Lowercase hexadecimal digit. -/
def hexDigit (n : Nat) : Char := Char.ofNat (if n < 10 then 48 + n else 87 + n)

/-- Model of `hashlib.sha512(data).hexdigest()`: the lowercase-hexadecimal
SHA-512 digest of a byte string. -/
def sha512hex (msg : List Nat) : Str :=
  (sha512bytes msg).foldr (fun b acc => hexDigit (b / 16) :: hexDigit (b % 16) :: acc) []

/-- Path segments of `PosixPath(".m2") / "repository" / relpath`. -/
def m2Segs (relpath : Str) : List Str :=
  ".m2".data :: "repository".data :: toSegments relpath

/-- Model of `create_flatpak_source`: resolve `repo / url.relpath` in the
filesystem, take the file name as destination filename — unless that name is
exactly `maven-metadata.xml` and the file's directory holds names matching
`maven-metadata-*.xml`, in which case the first such name is used — and build
the flatpak file source with the `.m2/repository`-prefixed parent directory as
`dest` and the SHA-512 hex digest of the file's bytes as `sha512`. -/
def create_flatpak_source (fs : FS) (repo : List Str) (u : ArtifactUrl) :
    Except PyErr FlatpakFileSource :=
  let artifact := repo ++ toSegments u.relpath
  let baseName := artifact.getLastD []
  let dest_filename :=
    if baseName = "maven-metadata.xml".data then
      match (fs.dirNames artifact.dropLast).filter matchesMetaGlob with
      | c :: _ => c
      | [] => baseName
    else baseName
  match fs.readBytes artifact with
  | none => .error .fileNotFound
  | some content =>
    .ok { url := u.url, dest := renderPosix (m2Segs u.relpath).dropLast,
          dest_filename := dest_filename, sha512 := sha512hex content }

/-- Python string comparison `x <= y`: lexicographic on code points. -/
def lexLe : Str → Str → Bool
  | [], _ => true
  | _ :: _, [] => false
  | a :: as, b :: bs => if a < b then true else if b < a then false else lexLe as bs

/-- The `sources.sort(key=lambda u: u.url)` step of `update_dependencies`:
Python's `list.sort` is a stable sort by the key. -/
def sortByUrl (l : List FlatpakFileSource) : List FlatpakFileSource :=
  l.mergeSort (fun x y => lexLe x.url y.url)

/-- Pure core of `update_dependencies`: the subprocess calls are abstracted
into their results — `build_log` is the captured maven stdout and `fs`/`repo`
the local repository directory maven populated — after which the code extracts
the artifact URLs from the log, synthesizes one flatpak source per URL, and
sorts the sources by URL. -/
def update_dependencies_sources (fs : FS) (repo : List Str) (build_log : Str) :
    Except PyErr (List FlatpakFileSource) :=
  match extract_downloaded_artifacts build_log with
  | .error e => .error e
  | .ok urls =>
    match urls.mapM (create_flatpak_source fs repo) with
    | .error e => .error e
    | .ok sources => .ok (sortByUrl sources)

/-- Assignment semantics of the scan loops: an extracted value overwrites the
state, no value leaves it unchanged. -/
def applyUpd (a v : Option Str) : Option Str :=
  match v with
  | some x => some x
  | none => a

/-- State of one scanned field after processing the lines `xs` from initial
state `a`, where `f` gives the value a line assigns. -/
def updLast (a : Option Str) (f : Str → Option Str) (xs : List Str) : Option Str :=
  xs.foldl (fun acc l => applyUpd acc (f l)) a

/-- Python truthiness of an optional string: set and non-empty. -/
def truthyB : Option Str → Bool
  | some v => decide (v ≠ [])
  | none => false

/-- Value a line assigns to `url` in the third loop of
`find_mediathekview_source`. -/
def urlVal (line : Str) : Option Str :=
  if "url:".data.isPrefixOf (pyStrip line) then
    some (pyStrip (afterColon (pyStrip line)))
  else none

/-- Value a line assigns to `commit` in the third loop of
`find_mediathekview_source`. -/
def commitVal (line : Str) : Option Str :=
  if "commit:".data.isPrefixOf (pyStrip line) then
    some (pyStrip (afterColon (pyStrip line)))
  else none

/-- Whether the `if url and commit` check of `find_mediathekview_source`
succeeds right after the line at index `k` has been processed, starting from
state `(u, c)`. -/
def ucReadyAt (u c : Option Str) (lines : List Str) (k : Nat) : Bool :=
  truthyB (updLast u urlVal (lines.take (k + 1))) &&
    truthyB (updLast c commitVal (lines.take (k + 1)))

/-- Value a line assigns to `name` in `FlatpakSdk.parse_from_manifest`. -/
def sdkVal (line : Str) : Option Str :=
  if "sdk:".data.isPrefixOf line then some (pyStrip (afterColon line)) else none

/-- Value a line assigns to `version` in `FlatpakSdk.parse_from_manifest`. -/
def rvVal (line : Str) : Option Str :=
  if "runtime-version".data.isPrefixOf line then
    some (stripQuotes (pyStrip (afterColon line)))
  else none

/-- Whether the `if name and version` check of `FlatpakSdk.parse_from_manifest`
succeeds right after the line at index `k` has been processed, starting from
state `(n, v)`. -/
def sdkReadyAt (n v : Option Str) (lines : List Str) (k : Nat) : Bool :=
  truthyB (updLast n sdkVal (lines.take (k + 1))) &&
    truthyB (updLast v rvVal (lines.take (k + 1)))

/-- The lines after the first line whose stripped form is `m`, when one
exists. -/
def suffixAfterMarker (m : Str) : List Str → Option (List Str)
  | [] => none
  | l :: rest => if pyStrip l = m then some rest else suffixAfterMarker m rest

/-- First value assigned by any line of `xs` under the extractor `f`. -/
def firstVal (f : Str → Option Str) (xs : List Str) : Option Str :=
  (xs.filterMap f).head?

/-- Modelled from the claim on `find_mediathekview_source` (the spec's
forward-only, single-pass, no-backtracking scan): find the first line stripping
to the module marker, continue forward from that point for the first line
stripping to the git marker, then continue forward collecting the first
`url:`-prefixed and first `commit:`-prefixed lines (order-independent, both
required); raise a lookup error when any of these is never found in that
forward walk. -/
def find_mediathekview_source_claimed (manifest : Str) : Except PyErr FlatpakGitSource :=
  match suffixAfterMarker nameMarker (splitlines manifest) with
  | none => .error (.lookupError "mediathekview module not found".data)
  | some rest1 =>
    match suffixAfterMarker gitMarker rest1 with
    | none => .error (.lookupError "git source not found".data)
    | some rest2 =>
      match firstVal urlVal rest2, firstVal commitVal rest2 with
      | some u, some c => .ok ⟨u, c⟩
      | _, _ =>
        .error (.lookupError "url or commit not found in main mediathekview source".data)

/-- Modelled from the claim on `FlatpakSdk.parse_from_manifest`: `name` is the
value of the first line starting with `sdk:` and `version` the value of the
first line starting with `runtime-version`; a lookup error when either is
never found. -/
def parse_from_manifest_claimed (manifest : Str) : Except PyErr FlatpakSdk :=
  match firstVal sdkVal (splitlines manifest), firstVal rvVal (splitlines manifest) with
  | some n, some v => .ok ⟨n, v⟩
  | _, _ => .error (.lookupError "Failed to find sdk or runtime-version in manifest".data)

/-- Extraction restricted to the already-captured URL tokens: parse each token
in order, aborting at the first unrecognized one. `extractGo` factors through
this via `List.filterMap m2Search`. -/
def tokGo : List Str → Except PyErr (List ArtifactUrl)
  | [] => .ok []
  | t :: ts =>
    match ArtifactUrl.parse_url t with
    | .error e => .error e
    | .ok a =>
      match tokGo ts with
      | .error e => .error e
      | .ok l => .ok (a :: l)

/-! Concrete inputs used by the witnesses and counterexamples. -/

/-- A recognized artifact URL. -/
def c1url : Str := "https://repo.maven.apache.org/maven2/foo/bar/1.0/bar-1.0.jar".data

/-- An artifact URL from no known repository. -/
def c3url : Str := "https://evil.example/a.jar".data

/-- A build log whose only downloaded artifact has an unrecognized origin. -/
def c3log : Str := "ok\nDownloaded from other: https://evil.example/a.jar (1 kB)".data

/-- A build log with two `Downloaded from` lines naming the same URL. -/
def c4log : Str :=
  ("[INFO] Downloaded from central: https://repo.maven.apache.org/maven2/a/b.jar (1 kB)\n"
    ++ "ok\n"
    ++ "[INFO] Downloaded from central: https://repo.maven.apache.org/maven2/a/b.jar (1 kB)").data

/-- A cache directory holding a group metadata file next to a versioned one. -/
def fsMeta : FS :=
  ⟨[(["r".data, "g".data, "maven-metadata.xml".data], [0, 1, 2]),
    (["r".data, "g".data, "maven-metadata-20240101.120000-3.xml".data], [3, 4])]⟩

/-- The artifact reference of the group metadata file in `fsMeta`. -/
def uMeta : ArtifactUrl :=
  ⟨"https://repo.maven.apache.org/maven2/g/maven-metadata.xml".data,
   "https://repo.maven.apache.org/maven2/".data,
   "g/maven-metadata.xml".data⟩

/-- A cache directory holding one ordinary jar artifact. -/
def fsJar : FS :=
  ⟨[(["r".data, "foo".data, "bar".data, "1.0".data, "bar-1.0.jar".data], [9, 8, 7])]⟩

/-- The artifact reference of the jar in `fsJar`. -/
def uJar : ArtifactUrl :=
  ⟨"https://repo.maven.apache.org/maven2/foo/bar/1.0/bar-1.0.jar".data,
   "https://repo.maven.apache.org/maven2/".data,
   "foo/bar/1.0/bar-1.0.jar".data⟩

/-- A build log downloading two artifacts in descending URL order. -/
def c8log : Str :=
  ("Downloaded from central: https://repo.maven.apache.org/maven2/b/b.jar (1 kB)\n"
    ++ "Downloaded from central: https://repo.maven.apache.org/maven2/a/a.jar (1 kB)").data

/-- The cache directory for `c8log`. -/
def c8fs : FS :=
  ⟨[(["r".data, "b".data, "b.jar".data], [1]),
    (["r".data, "a".data, "a.jar".data], [2])]⟩

/-- The output `update_dependencies` produces for `c8fs` and `c8log`: sorted
by URL, so the `a/a.jar` record comes first. -/
def c8out : List FlatpakFileSource :=
  [⟨"https://repo.maven.apache.org/maven2/a/a.jar".data, ".m2/repository/a".data, "a.jar".data,
    ("fab848c9b657a853ee37c09cbfdd149d0b3807b191dde9b623ccd95281dd187"
      ++ "05b48c89b1503903845bba5753945351fe6b454852760f73529cf01ca8f69dcca").data⟩,
   ⟨"https://repo.maven.apache.org/maven2/b/b.jar".data, ".m2/repository/b".data, "b.jar".data,
    ("7b54b66836c1fbdd13d2441d9e1434dc62ca677fb68f5fe66a464baadecdbd00"
      ++ "576f8d6b5ac3bcc80844b7d50b1cc6603444bbe7cfcf8fc0aa1ee3c636d9e339").data⟩]

/-- The records synthesized for `c8log` in log order, before sorting. -/
def c8raw : List FlatpakFileSource :=
  [⟨"https://repo.maven.apache.org/maven2/b/b.jar".data, ".m2/repository/b".data, "b.jar".data,
    ("7b54b66836c1fbdd13d2441d9e1434dc62ca677fb68f5fe66a464baadecdbd00"
      ++ "576f8d6b5ac3bcc80844b7d50b1cc6603444bbe7cfcf8fc0aa1ee3c636d9e339").data⟩,
   ⟨"https://repo.maven.apache.org/maven2/a/a.jar".data, ".m2/repository/a".data, "a.jar".data,
    ("fab848c9b657a853ee37c09cbfdd149d0b3807b191dde9b623ccd95281dd187"
      ++ "05b48c89b1503903845bba5753945351fe6b454852760f73529cf01ca8f69dcca").data⟩]

/-- A manifest whose git-source marker precedes the module marker: the claimed
forward-only scan misses the git marker, the implemented scan does not. -/
def mC2 : Str :=
  ("- type: git\nurl: https://example.test/repo.git\ncommit: abc123\n"
    ++ "- name: mediathekview").data

/-- A well-formed manifest fragment with the markers in document order. -/
def mC2w : Str :=
  ("- name: mediathekview\n- type: git\nurl: https://example.test/repo.git\n"
    ++ "commit: abc123").data

/-- A manifest with two `sdk:` lines before the `runtime-version` line: the
scan returns the value of the second one. -/
def mC9 : Str := "sdk: A\nsdk: B\nruntime-version: 1".data

/-- A well-formed manifest fragment for the SDK scan. -/
def mC9w : Str := "id: x\nsdk: org.kde.Platform\nruntime-version: 6.6".data

/-! Helper lemmas. -/

theorem isPrefixOf_append_drop {b u : Str} (h : b.isPrefixOf u) :
    b ++ u.drop b.length = u := by
  obtain ⟨t, rfl⟩ := List.isPrefixOf_iff_prefix.mp h
  rw [List.drop_left]

theorem parse_url_ok {t : Str} (h : ∃ b ∈ REPO_BASES, b.isPrefixOf t) :
    ∃ a, ArtifactUrl.parse_url t = .ok a ∧ a.url = t := by
  have hsome : (REPO_BASES.find? (fun base => base.isPrefixOf t)).isSome :=
    List.find?_isSome.mpr h
  obtain ⟨b0, hfind⟩ := Option.isSome_iff_exists.mp hsome
  refine ⟨⟨t, b0, t.drop b0.length⟩, ?_, rfl⟩
  unfold ArtifactUrl.parse_url
  rw [hfind]

theorem parse_url_err {t : Str} (h : ∀ b ∈ REPO_BASES, ¬ b.isPrefixOf t) :
    ArtifactUrl.parse_url t = .error (.valueError (t ++ notKnownMsg)) := by
  have hnone : REPO_BASES.find? (fun base => base.isPrefixOf t) = none :=
    List.find?_eq_none.mpr h
  unfold ArtifactUrl.parse_url
  rw [hnone]

theorem extractGo_eq_tokGo (lines : List Str) :
    extractGo lines = tokGo (lines.filterMap m2Search) := by
  induction lines with
  | nil => rfl
  | cons l rest ih =>
    cases h : m2Search l with
    | none => simp [extractGo, h, List.filterMap_cons, ih]
    | some tok => simp [extractGo, tokGo, h, List.filterMap_cons, ih]

theorem tokGo_ok (ts : List Str) (h : ∀ t ∈ ts, ∃ b ∈ REPO_BASES, b.isPrefixOf t) :
    ∃ l, tokGo ts = .ok l ∧ l.map (fun a => a.url) = ts := by
  induction ts with
  | nil => exact ⟨[], rfl, rfl⟩
  | cons t ts ih =>
    obtain ⟨a, ha, hu⟩ := parse_url_ok (h t (by simp))
    obtain ⟨l, hl, hmap⟩ := ih (fun x hx => h x (by simp [hx]))
    exact ⟨a :: l, by simp [tokGo, ha, hl], by simp [hmap, hu]⟩

theorem tokGo_error (pre : List Str) (u : Str) (post : List Str)
    (hpre : ∀ t ∈ pre, ∃ b ∈ REPO_BASES, b.isPrefixOf t)
    (hu : ∀ b ∈ REPO_BASES, ¬ b.isPrefixOf u) :
    tokGo (pre ++ u :: post) = .error (.valueError (u ++ notKnownMsg)) := by
  induction pre with
  | nil => simp [tokGo, parse_url_err hu]
  | cons t pre ih =>
    obtain ⟨a, ha, -⟩ := parse_url_ok (hpre t (by simp))
    have htail := ih (fun x hx => hpre x (by simp [hx]))
    simp [tokGo, ha, htail]

theorem urlTokenAt_shape {s t : Str} (h : urlTokenAt s = some t) :
    ("http://".data.isPrefixOf t ∨ "https://".data.isPrefixOf t) ∧ ' ' ∉ t := by
  unfold urlTokenAt at h
  by_cases h1 : "https://".data.isPrefixOf s
  · rw [if_pos h1] at h
    by_cases h2 : (s.drop 8).takeWhile (fun c => c ≠ ' ') = []
    · rw [if_pos h2] at h; exact absurd h (by simp)
    · rw [if_neg h2] at h
      have ht : t = "https://".data ++ (s.drop 8).takeWhile (fun c => c ≠ ' ') :=
        (Option.some.inj h).symm
      subst ht
      refine ⟨Or.inr (List.isPrefixOf_iff_prefix.mpr (List.prefix_append _ _)), ?_⟩
      intro hmem
      rcases List.mem_append.mp hmem with hm | hm
      · exact absurd hm (by decide)
      · exact absurd (List.mem_takeWhile_imp hm) (by simp)
  · rw [if_neg h1] at h
    by_cases h1' : "http://".data.isPrefixOf s
    · rw [if_pos h1'] at h
      by_cases h2 : (s.drop 7).takeWhile (fun c => c ≠ ' ') = []
      · rw [if_pos h2] at h; exact absurd h (by simp)
      · rw [if_neg h2] at h
        have ht : t = "http://".data ++ (s.drop 7).takeWhile (fun c => c ≠ ' ') :=
          (Option.some.inj h).symm
        subst ht
        refine ⟨Or.inl (List.isPrefixOf_iff_prefix.mpr (List.prefix_append _ _)), ?_⟩
        intro hmem
        rcases List.mem_append.mp hmem with hm | hm
        · exact absurd hm (by decide)
        · exact absurd (List.mem_takeWhile_imp hm) (by simp)
    · rw [if_neg h1'] at h; exact absurd h (by simp)

theorem colonUrlAt_shape {s t : Str} (h : colonUrlAt s = some t) :
    ("http://".data.isPrefixOf t ∨ "https://".data.isPrefixOf t) ∧ ' ' ∉ t := by
  match s with
  | [] => exact absurd h (by simp [colonUrlAt])
  | [c] => exact absurd h (by simp [colonUrlAt])
  | c :: d :: rest =>
    simp only [colonUrlAt] at h
    by_cases hcd : c = ':' ∧ d = ' '
    · rw [if_pos hcd] at h; exact urlTokenAt_shape h
    · rw [if_neg hcd] at h; exact absurd h (by simp)

theorem lastColonUrl_shape {s t : Str} (h : lastColonUrl s = some t) :
    ("http://".data.isPrefixOf t ∨ "https://".data.isPrefixOf t) ∧ ' ' ∉ t := by
  induction s with
  | nil => exact absurd h (by simp [lastColonUrl])
  | cons c rest ih =>
    unfold lastColonUrl at h
    cases hr : lastColonUrl rest with
    | some tok =>
      rw [hr] at h
      obtain rfl : tok = t := Option.some.inj h
      exact ih hr
    | none =>
      rw [hr] at h
      exact colonUrlAt_shape h

theorem m2Search_shape {s t : Str} (h : m2Search s = some t) :
    ("http://".data.isPrefixOf t ∨ "https://".data.isPrefixOf t) ∧ ' ' ∉ t := by
  induction s with
  | nil => exact absurd h (by simp [m2Search])
  | cons c rest ih =>
    unfold m2Search at h
    by_cases hp : "Downloaded from ".data.isPrefixOf (c :: rest)
    · rw [if_pos hp] at h
      cases hl : lastColonUrl ((c :: rest).drop 16) with
      | some tok =>
        rw [hl] at h
        obtain rfl : tok = t := Option.some.inj h
        exact lastColonUrl_shape hl
      | none => rw [hl] at h; exact ih h
    · rw [if_neg hp] at h; exact ih h

/-- C1: for every URL `u` that starts with one of the base URLs in
`REPO_BASES`, `ArtifactUrl.parse_url` succeeds and returns a reference whose
`repo_base_url` is the first matching base in list order and whose `relpath`
is `u` with that prefix removed, so that `repo_base_url ++ relpath = u` and
`repo_base_url` is a member of the allow-list. -/
theorem c1_parse_url_roundtrip (u : Str) (h : ∃ b ∈ REPO_BASES, b.isPrefixOf u) :
    ∃ r : ArtifactUrl,
      ArtifactUrl.parse_url u = .ok r ∧
      r.url = u ∧
      REPO_BASES.find? (fun base => base.isPrefixOf u) = some r.repo_base_url ∧
      r.repo_base_url ∈ REPO_BASES ∧
      r.relpath = u.drop r.repo_base_url.length ∧
      r.repo_base_url ++ r.relpath = u := by
  have hsome : (REPO_BASES.find? (fun base => base.isPrefixOf u)).isSome :=
    List.find?_isSome.mpr h
  obtain ⟨b0, hfind⟩ := Option.isSome_iff_exists.mp hsome
  refine ⟨⟨u, b0, u.drop b0.length⟩, ?_, rfl, hfind, ?_, rfl, ?_⟩
  · unfold ArtifactUrl.parse_url
    rw [hfind]
  · exact List.mem_of_find?_eq_some hfind
  · have hp : b0.isPrefixOf u := by simpa using List.find?_some hfind
    exact isPrefixOf_append_drop hp

/-- Witness for C1 at the concrete URL `c1url`. -/
theorem c1_parse_url_roundtrip_witness :
    (∃ b ∈ REPO_BASES, b.isPrefixOf c1url) ∧
    (∃ r : ArtifactUrl,
      ArtifactUrl.parse_url c1url = .ok r ∧
      r.url = c1url ∧
      REPO_BASES.find? (fun base => base.isPrefixOf c1url) = some r.repo_base_url ∧
      r.repo_base_url ∈ REPO_BASES ∧
      r.relpath = c1url.drop r.repo_base_url.length ∧
      r.repo_base_url ++ r.relpath = c1url) :=
  ⟨by decide, c1_parse_url_roundtrip c1url (by decide)⟩

/-- C3: for every URL `u` that starts with none of the bases in `REPO_BASES`,
`ArtifactUrl.parse_url` fails with a `ValueError` whose message names `u`, and
a log extraction whose captured tokens reach `u` (all earlier tokens being
recognized) fails with that error instead of emitting a record for `u`. -/
theorem c3_unrecognized_url_fails (u : Str) (log : Str) (pre post : List Str)
    (hu : ∀ b ∈ REPO_BASES, ¬ b.isPrefixOf u)
    (hsplit : (splitlines log).filterMap m2Search = pre ++ u :: post)
    (hpre : ∀ t ∈ pre, ∃ b ∈ REPO_BASES, b.isPrefixOf t) :
    ArtifactUrl.parse_url u = .error (.valueError (u ++ notKnownMsg)) ∧
    extract_downloaded_artifacts log = .error (.valueError (u ++ notKnownMsg)) := by
  refine ⟨parse_url_err hu, ?_⟩
  unfold extract_downloaded_artifacts
  rw [extractGo_eq_tokGo, hsplit]
  exact tokGo_error pre u post hpre hu

/-- Witness for C3 at the concrete log `c3log`, whose only captured URL is the
unrecognized `c3url`. -/
theorem c3_unrecognized_url_fails_witness :
    (∀ b ∈ REPO_BASES, ¬ b.isPrefixOf c3url) ∧
    ((splitlines c3log).filterMap m2Search = [] ++ c3url :: []) ∧
    (ArtifactUrl.parse_url c3url = .error (.valueError (c3url ++ notKnownMsg)) ∧
      extract_downloaded_artifacts c3log = .error (.valueError (c3url ++ notKnownMsg))) :=
  ⟨by decide, by decide,
    c3_unrecognized_url_fails c3url c3log [] [] (by decide) (by decide) (by decide)⟩

/-- C4: for every build-output text whose captured URL tokens are all
recognized, `extract_downloaded_artifacts` produces exactly one reference per
line on which the `Downloaded from .*: (https?://[^ ]+)` search succeeds, in
text order and without deduplication (the produced URLs are exactly the
captured tokens); every captured token is an `http://` or `https://` token of
non-space characters; and a text with zero matching lines produces `[]`. -/
theorem c4_extract_one_per_line (log : Str)
    (h : ∀ t ∈ (splitlines log).filterMap m2Search, ∃ b ∈ REPO_BASES, b.isPrefixOf t) :
    ∃ l, extract_downloaded_artifacts log = .ok l ∧
      l.map (fun a => a.url) = (splitlines log).filterMap m2Search ∧
      (∀ t ∈ (splitlines log).filterMap m2Search,
        ("http://".data.isPrefixOf t ∨ "https://".data.isPrefixOf t) ∧ ' ' ∉ t) ∧
      ((splitlines log).filterMap m2Search = [] →
        extract_downloaded_artifacts log = .ok []) := by
  obtain ⟨l, hok, hmap⟩ := tokGo_ok _ h
  have hgo : extract_downloaded_artifacts log = .ok l := by
    unfold extract_downloaded_artifacts
    rw [extractGo_eq_tokGo, hok]
  refine ⟨l, hgo, hmap, ?_, ?_⟩
  · intro t ht
    obtain ⟨line, -, hline⟩ := List.mem_filterMap.mp ht
    exact m2Search_shape hline
  · intro hnil
    have : l.map (fun a => a.url) = [] := by rw [hmap, hnil]
    rw [hgo, List.map_eq_nil_iff.mp this]

/-- Witness for C4 at the concrete log `c4log`, which repeats one URL on two
matching lines. -/
theorem c4_extract_one_per_line_witness :
    (∀ t ∈ (splitlines c4log).filterMap m2Search, ∃ b ∈ REPO_BASES, b.isPrefixOf t) ∧
    (∃ l, extract_downloaded_artifacts c4log = .ok l ∧
      l.map (fun a => a.url) = (splitlines c4log).filterMap m2Search ∧
      (∀ t ∈ (splitlines c4log).filterMap m2Search,
        ("http://".data.isPrefixOf t ∨ "https://".data.isPrefixOf t) ∧ ' ' ∉ t) ∧
      ((splitlines c4log).filterMap m2Search = [] →
        extract_downloaded_artifacts c4log = .ok [])) :=
  ⟨by decide, c4_extract_one_per_line c4log (by decide)⟩

theorem renderPosix_cons (a : Str) (l : List Str) :
    renderPosix (a :: l) = a ++ l.foldr (fun seg acc => "/".data ++ seg ++ acc) [] := by
  induction l generalizing a with
  | nil => simp [renderPosix]
  | cons b l ih =>
    have hstep : List.intersperse "/".data (a :: b :: l)
        = a :: "/".data :: List.intersperse "/".data (b :: l) := by
      simp [List.intersperse]
    simp only [renderPosix] at ih ⊢
    rw [hstep]
    simp [ih, List.append_assoc]

theorem create_flatpak_source_ok (fs : FS) (repo : List Str) (u : ArtifactUrl)
    (content : List Nat)
    (hread : fs.readBytes (repo ++ toSegments u.relpath) = some content) :
    create_flatpak_source fs repo u =
      .ok { url := u.url,
            dest := renderPosix (m2Segs u.relpath).dropLast,
            dest_filename :=
              if (repo ++ toSegments u.relpath).getLastD [] = "maven-metadata.xml".data then
                match (fs.dirNames (repo ++ toSegments u.relpath).dropLast).filter matchesMetaGlob with
                | c :: _ => c
                | [] => (repo ++ toSegments u.relpath).getLastD []
              else (repo ++ toSegments u.relpath).getLastD [],
            sha512 := sha512hex content } := by
  simp only [create_flatpak_source, hread]

/-- C5: for every artifact reference whose final path segment is exactly
`maven-metadata.xml`, `create_flatpak_source` checks the cached file's
directory for names matching `maven-metadata-*.xml` and, when any exist, uses
the first match as `dest_filename`; otherwise, and for any other final path
segment, `dest_filename` is the final path segment itself. -/
theorem c5_dest_filename_override (fs : FS) (repo : List Str) (u : ArtifactUrl)
    (content : List Nat)
    (hread : fs.readBytes (repo ++ toSegments u.relpath) = some content) :
    ((repo ++ toSegments u.relpath).getLastD [] = "maven-metadata.xml".data →
      (∀ c cs,
        (fs.dirNames (repo ++ toSegments u.relpath).dropLast).filter matchesMetaGlob = c :: cs →
        (create_flatpak_source fs repo u).map (fun r => r.dest_filename) = .ok c) ∧
      ((fs.dirNames (repo ++ toSegments u.relpath).dropLast).filter matchesMetaGlob = [] →
        (create_flatpak_source fs repo u).map (fun r => r.dest_filename) =
          .ok "maven-metadata.xml".data)) ∧
    ((repo ++ toSegments u.relpath).getLastD [] ≠ "maven-metadata.xml".data →
      (create_flatpak_source fs repo u).map (fun r => r.dest_filename) =
        .ok ((repo ++ toSegments u.relpath).getLastD [])) := by
  rw [create_flatpak_source_ok fs repo u content hread]
  refine ⟨fun hbase => ⟨fun c cs hcand => ?_, fun hcand => ?_⟩, fun hbase => ?_⟩
  · rw [if_pos hbase, hcand]
    rfl
  · rw [if_pos hbase, hcand, hbase]
    rfl
  · rw [if_neg hbase]
    rfl

/-- Witness for C5: in `fsMeta` the reference `uMeta` ends in
`maven-metadata.xml` and a versioned sibling exists, so it becomes the
destination filename. -/
theorem c5_dest_filename_override_witness :
    (fsMeta.readBytes (["r".data] ++ toSegments uMeta.relpath) = some [0, 1, 2]) ∧
    (((["r".data] ++ toSegments uMeta.relpath).getLastD [] = "maven-metadata.xml".data →
      (∀ c cs,
        (fsMeta.dirNames (["r".data] ++ toSegments uMeta.relpath).dropLast).filter matchesMetaGlob = c :: cs →
        (create_flatpak_source fsMeta ["r".data] uMeta).map (fun r => r.dest_filename) = .ok c) ∧
      ((fsMeta.dirNames (["r".data] ++ toSegments uMeta.relpath).dropLast).filter matchesMetaGlob = [] →
        (create_flatpak_source fsMeta ["r".data] uMeta).map (fun r => r.dest_filename) =
          .ok "maven-metadata.xml".data)) ∧
    ((["r".data] ++ toSegments uMeta.relpath).getLastD [] ≠ "maven-metadata.xml".data →
      (create_flatpak_source fsMeta ["r".data] uMeta).map (fun r => r.dest_filename) =
        .ok ((["r".data] ++ toSegments uMeta.relpath).getLastD []))) :=
  ⟨by decide, c5_dest_filename_override fsMeta ["r".data] uMeta [0, 1, 2] (by decide)⟩

/-- C6: for every artifact reference whose resolved file exists in the cache,
the synthesized record's `sha512` field is the lowercase hexadecimal SHA-512
digest of exactly that file's bytes. -/
theorem c6_sha512_of_file (fs : FS) (repo : List Str) (u : ArtifactUrl)
    (content : List Nat)
    (hread : fs.readBytes (repo ++ toSegments u.relpath) = some content) :
    (create_flatpak_source fs repo u).map (fun r => r.sha512) = .ok (sha512hex content) := by
  rw [create_flatpak_source_ok fs repo u content hread]
  rfl

/-- Witness for C6 at the jar artifact of `fsJar`. -/
theorem c6_sha512_of_file_witness :
    (fsJar.readBytes (["r".data] ++ toSegments uJar.relpath) = some [9, 8, 7]) ∧
    (create_flatpak_source fsJar ["r".data] uJar).map (fun r => r.sha512) =
      .ok (sha512hex [9, 8, 7]) :=
  ⟨by decide, c6_sha512_of_file fsJar ["r".data] uJar [9, 8, 7] (by decide)⟩

/-- C7: for every artifact reference (with a non-empty relative path) whose
resolved file exists, the synthesized record's `dest` is the forward-slash
join of the fixed prefix `.m2/repository` with the parent directory of
`relative_path`. -/
theorem c7_dest_path (fs : FS) (repo : List Str) (u : ArtifactUrl)
    (content : List Nat)
    (hread : fs.readBytes (repo ++ toSegments u.relpath) = some content)
    (hseg : toSegments u.relpath ≠ []) :
    (create_flatpak_source fs repo u).map (fun r => r.dest) =
      .ok (".m2/repository".data ++
        (toSegments u.relpath).dropLast.foldr (fun seg acc => "/".data ++ seg ++ acc) []) := by
  rw [create_flatpak_source_ok fs repo u content hread]
  have hdl : (m2Segs u.relpath).dropLast
      = ".m2".data :: "repository".data :: (toSegments u.relpath).dropLast := by
    unfold m2Segs
    rw [List.dropLast_cons_of_ne_nil (by simp), List.dropLast_cons_of_ne_nil hseg]
  show Except.ok (renderPosix (m2Segs u.relpath).dropLast) = _
  rw [hdl, renderPosix_cons, List.foldr_cons]
  rw [show ((toSegments u.relpath).dropLast.foldr (fun seg acc => "/".data ++ seg ++ acc) [] : Str)
        = List.foldr (fun seg acc => "/".data ++ seg ++ acc) [] (toSegments u.relpath).dropLast from rfl]
  rw [← List.append_assoc, ← List.append_assoc]
  have hlit : ((".m2".data ++ "/".data) ++ "repository".data : Str) = ".m2/repository".data := by
    decide
  rw [hlit]

/-- Witness for C7 at the jar artifact of `fsJar`, realizing the spec's
example: relative path `foo/bar/1.0/bar-1.0.jar` gives destination
`.m2/repository/foo/bar/1.0`. -/
theorem c7_dest_path_witness :
    (fsJar.readBytes (["r".data] ++ toSegments uJar.relpath) = some [9, 8, 7]) ∧
    (toSegments uJar.relpath ≠ []) ∧
    (create_flatpak_source fsJar ["r".data] uJar).map (fun r => r.dest) =
      .ok ".m2/repository/foo/bar/1.0".data := by
  refine ⟨by decide, by decide, ?_⟩
  have h := c7_dest_path fsJar ["r".data] uJar [9, 8, 7] (by decide) (by decide)
  rw [h]
  exact congrArg Except.ok (by decide)

/-- C10: when the `maven-metadata.xml` destination-filename override fires,
every other field of the record is computed as without the override: `url` is
the reference's full URL, `dest` comes from the relative path's parent, and
`sha512` is the digest of the generic `maven-metadata.xml` cache file resolved
from the relative path — not of the versioned sibling named by
`dest_filename`. -/
theorem c10_override_frame (fs : FS) (repo : List Str) (u : ArtifactUrl)
    (content : List Nat) (c : Str) (cs : List Str)
    (hbase : (repo ++ toSegments u.relpath).getLastD [] = "maven-metadata.xml".data)
    (hcand : (fs.dirNames (repo ++ toSegments u.relpath).dropLast).filter matchesMetaGlob = c :: cs)
    (hread : fs.readBytes (repo ++ toSegments u.relpath) = some content) :
    create_flatpak_source fs repo u =
      .ok { url := u.url, dest := renderPosix (m2Segs u.relpath).dropLast,
            dest_filename := c, sha512 := sha512hex content } ∧
    (∀ sib, fs.readBytes ((repo ++ toSegments u.relpath).dropLast ++ [c]) = some sib →
      sha512hex sib ≠ sha512hex content →
      (FlatpakFileSource.mk u.url (renderPosix (m2Segs u.relpath).dropLast) c
        (sha512hex content)).sha512 ≠ sha512hex sib) := by
  refine ⟨?_, fun sib _ hne => fun hcontra => hne hcontra.symm⟩
  rw [create_flatpak_source_ok fs repo u content hread]
  rw [if_pos hbase, hcand]

/-- Witness for C10 at the metadata artifact of `fsMeta`. -/
theorem c10_override_frame_witness :
    ((["r".data] ++ toSegments uMeta.relpath).getLastD [] = "maven-metadata.xml".data) ∧
    ((fsMeta.dirNames (["r".data] ++ toSegments uMeta.relpath).dropLast).filter matchesMetaGlob
      = "maven-metadata-20240101.120000-3.xml".data :: []) ∧
    (fsMeta.readBytes (["r".data] ++ toSegments uMeta.relpath) = some [0, 1, 2]) ∧
    (create_flatpak_source fsMeta ["r".data] uMeta =
      .ok { url := uMeta.url, dest := renderPosix (m2Segs uMeta.relpath).dropLast,
            dest_filename := "maven-metadata-20240101.120000-3.xml".data,
            sha512 := sha512hex [0, 1, 2] } ∧
    (∀ sib,
      fsMeta.readBytes ((["r".data] ++ toSegments uMeta.relpath).dropLast
        ++ ["maven-metadata-20240101.120000-3.xml".data]) = some sib →
      sha512hex sib ≠ sha512hex [0, 1, 2] →
      (FlatpakFileSource.mk uMeta.url (renderPosix (m2Segs uMeta.relpath).dropLast)
        "maven-metadata-20240101.120000-3.xml".data
        (sha512hex [0, 1, 2])).sha512 ≠ sha512hex sib)) :=
  ⟨by decide, by decide, by decide,
    c10_override_frame fsMeta ["r".data] uMeta [0, 1, 2]
      "maven-metadata-20240101.120000-3.xml".data [] (by decide) (by decide) (by decide)⟩

theorem lexLe_refl (a : Str) : lexLe a a := by
  induction a with
  | nil => rfl
  | cons x xs ih =>
    simp only [lexLe]
    rw [if_neg (lt_irrefl x), if_neg (lt_irrefl x)]
    exact ih

theorem lexLe_trans (a : Str) : ∀ b c : Str, lexLe a b → lexLe b c → lexLe a c := by
  induction a with
  | nil => intro b c _ _; rfl
  | cons x xs ih =>
    intro b c hab hbc
    match b, c with
    | [], _ => simp [lexLe] at hab
    | y :: ys, [] => simp [lexLe] at hbc
    | y :: ys, z :: zs =>
      simp only [lexLe] at hab hbc ⊢
      by_cases hxy : x < y
      · by_cases hyz : y < z
        · rw [if_pos (lt_trans hxy hyz)]
        · rw [if_neg hyz] at hbc
          by_cases hzy : z < y
          · rw [if_pos hzy] at hbc; exact absurd hbc (by simp)
          · have hyzeq : y = z := le_antisymm (not_lt.mp hzy) (not_lt.mp hyz)
            rw [if_pos (hyzeq ▸ hxy)]
      · rw [if_neg hxy] at hab
        by_cases hyx : y < x
        · rw [if_pos hyx] at hab; exact absurd hab (by simp)
        · rw [if_neg hyx] at hab
          have hxyeq : x = y := le_antisymm (not_lt.mp hyx) (not_lt.mp hxy)
          subst hxyeq
          by_cases hxz : x < z
          · rw [if_pos hxz]
          · rw [if_neg hxz] at hbc ⊢
            by_cases hzx : z < x
            · rw [if_pos hzx] at hbc; exact absurd hbc (by simp)
            · rw [if_neg hzx] at hbc ⊢
              exact ih ys zs hab hbc

theorem lexLe_total (a : Str) : ∀ b : Str, lexLe a b || lexLe b a := by
  induction a with
  | nil => intro b; simp [lexLe]
  | cons x xs ih =>
    intro b
    match b with
    | [] => simp [lexLe]
    | y :: ys =>
      simp only [lexLe]
      by_cases hxy : x < y
      · rw [if_pos hxy, Bool.true_or]
      · by_cases hyx : y < x
        · simp only [if_pos hyx, if_neg hxy]
          rfl
        · have hxyeq : x = y := le_antisymm (not_lt.mp hyx) (not_lt.mp hxy)
          subst hxyeq
          simp only [if_neg hxy]
          exact ih ys

/-- C8: every list of records `update_dependencies` returns is a permutation
of the synthesized records that is sorted by `url` ascending (lexicographic on
the full URL string) and stable: for each URL value, the sublist of records
carrying it is exactly the one of the unsorted synthesized list, in its
original order. -/
theorem c8_sorted_output (fs : FS) (repo : List Str) (log : Str)
    (out : List FlatpakFileSource)
    (h : update_dependencies_sources fs repo log = .ok out) :
    ∃ urls raw,
      extract_downloaded_artifacts log = .ok urls ∧
      urls.mapM (create_flatpak_source fs repo) = .ok raw ∧
      List.Perm out raw ∧
      List.Pairwise (fun x y => lexLe x.url y.url) out ∧
      ∀ v : Str, out.filter (fun r => decide (r.url = v)) =
        raw.filter (fun r => decide (r.url = v)) := by
  unfold update_dependencies_sources at h
  cases hex : extract_downloaded_artifacts log with
  | error e => rw [hex] at h; exact absurd h (by simp)
  | ok urls =>
    rw [hex] at h
    replace h : (match urls.mapM (create_flatpak_source fs repo) with
      | Except.error e => Except.error e
      | Except.ok sources => Except.ok (sortByUrl sources)) = Except.ok out := h
    cases hmap : urls.mapM (create_flatpak_source fs repo) with
    | error e => rw [hmap] at h; exact absurd h (by simp)
    | ok raw =>
      rw [hmap] at h
      have hout : out = sortByUrl raw := (Except.ok.inj h).symm
      subst hout
      have htrans : ∀ a b c : FlatpakFileSource,
          lexLe a.url b.url → lexLe b.url c.url → lexLe a.url c.url :=
        fun a b c hab hbc => lexLe_trans a.url b.url c.url hab hbc
      have htotal : ∀ a b : FlatpakFileSource,
          lexLe a.url b.url || lexLe b.url a.url :=
        fun a b => lexLe_total a.url b.url
      refine ⟨urls, raw, rfl, hmap, List.mergeSort_perm raw _, ?_, ?_⟩
      · exact List.sorted_mergeSort htrans htotal raw
      · intro v
        have hmem : ∀ r ∈ raw.filter (fun r => decide (r.url = v)), r.url = v := by
          intro r hr
          exact of_decide_eq_true (List.mem_filter.mp hr).2
        have hpw : List.Pairwise (fun x y => lexLe x.url y.url)
            (raw.filter (fun r => decide (r.url = v))) := by
          refine List.pairwise_of_forall_mem_list ?_
          intro x hx y hy
          rw [hmem x hx, hmem y hy]
          exact lexLe_refl v
        have hsub : List.Sublist (raw.filter (fun r => decide (r.url = v)))
            (List.mergeSort raw (fun x y => lexLe x.url y.url)) :=
          List.sublist_mergeSort htrans htotal hpw (List.filter_sublist raw)
        have hsub2 : List.Sublist
            ((raw.filter (fun r => decide (r.url = v))).filter (fun r => decide (r.url = v)))
            ((List.mergeSort raw (fun x y => lexLe x.url y.url)).filter
              (fun r => decide (r.url = v))) :=
          hsub.filter _
        have hself : (raw.filter (fun r => decide (r.url = v))).filter
            (fun r => decide (r.url = v)) = raw.filter (fun r => decide (r.url = v)) :=
          List.filter_eq_self.mpr (fun r hr => decide_eq_true (hmem r hr))
        rw [hself] at hsub2
        have hlen : ((List.mergeSort raw (fun x y => lexLe x.url y.url)).filter
            (fun r => decide (r.url = v))).length =
            (raw.filter (fun r => decide (r.url = v))).length := by
          rw [← List.countP_eq_length_filter, ← List.countP_eq_length_filter]
          exact (List.mergeSort_perm raw _).countP_eq _
        exact (hsub2.eq_of_length_le (le_of_eq hlen)).symm

set_option maxRecDepth 40000 in
/-- Witness for C8 at the concrete cache `c8fs` and log `c8log`, whose two
URLs appear in the log in descending order and are returned ascending. -/
theorem c8_sorted_output_witness :
    (update_dependencies_sources c8fs ["r".data] c8log = .ok c8out) ∧
    (∃ urls raw,
      extract_downloaded_artifacts c8log = .ok urls ∧
      urls.mapM (create_flatpak_source c8fs ["r".data]) = .ok raw ∧
      List.Perm c8out raw ∧
      List.Pairwise (fun x y => lexLe x.url y.url) c8out ∧
      ∀ v : Str, c8out.filter (fun r => decide (r.url = v)) =
        raw.filter (fun r => decide (r.url = v))) := by
  have hpipe : update_dependencies_sources c8fs ["r".data] c8log = .ok c8out := by
    have h1 : update_dependencies_sources c8fs ["r".data] c8log = .ok (sortByUrl c8raw) := rfl
    rw [h1]
    have h2 : sortByUrl c8raw = c8out := by
      simp +decide [sortByUrl, c8raw, c8out, List.mergeSort, List.merge]
    rw [h2]
  exact ⟨hpipe, c8_sorted_output c8fs ["r".data] c8log c8out hpipe⟩

theorem not_both_url_commit (s : Str) :
    ¬("url:".data.isPrefixOf s ∧ "commit:".data.isPrefixOf s) := by
  match s with
  | [] => simp [List.isPrefixOf]
  | c :: rest =>
    intro hb
    obtain ⟨h1, h2⟩ := hb
    simp only [show ("url:".data : Str) = 'u' :: "rl:".data from rfl,
      show ("commit:".data : Str) = 'c' :: "ommit:".data from rfl,
      List.isPrefixOf, Bool.and_eq_true, beq_iff_eq] at h1 h2
    rw [← h1.1] at h2
    exact absurd h2.1 (by decide)

theorem not_both_sdk_rv (s : Str) :
    ¬("sdk:".data.isPrefixOf s ∧ "runtime-version".data.isPrefixOf s) := by
  match s with
  | [] => simp [List.isPrefixOf]
  | c :: rest =>
    intro hb
    obtain ⟨h1, h2⟩ := hb
    simp only [show ("sdk:".data : Str) = 's' :: "dk:".data from rfl,
      show ("runtime-version".data : Str) = 'r' :: "untime-version".data from rfl,
      List.isPrefixOf, Bool.and_eq_true, beq_iff_eq] at h1 h2
    rw [← h1.1] at h2
    exact absurd h2.1 (by decide)

theorem prefix_contains_colon {pre line : Str} (hmem : ':' ∈ pre)
    (h : pre.isPrefixOf line) : line.contains ':' := by
  obtain ⟨t, rfl⟩ := List.isPrefixOf_iff_prefix.mp h
  have : ':' ∈ pre ++ t := List.mem_append.mpr (Or.inl hmem)
  exact List.elem_iff.mpr this

theorem ucStep_eq (u c : Option Str) (line : Str) :
    ucStep u c line = (applyUpd u (urlVal line), applyUpd c (commitVal line)) := by
  unfold ucStep urlVal commitVal
  by_cases h1 : "url:".data.isPrefixOf (pyStrip line)
  · have h2 : ¬ "commit:".data.isPrefixOf (pyStrip line) :=
      fun h2 => not_both_url_commit _ ⟨h1, h2⟩
    simp only [if_pos h1, if_neg h2]
    rfl
  · simp only [if_neg h1]
    by_cases h2 : "commit:".data.isPrefixOf (pyStrip line)
    · simp only [if_pos h2]
      rfl
    · simp only [if_neg h2]
      rfl

theorem sdkStep_eq (n v : Option Str) (line : Str)
    (hcr : "runtime-version".data.isPrefixOf line → line.contains ':') :
    sdkStep n v line = .ok (applyUpd n (sdkVal line), applyUpd v (rvVal line)) := by
  unfold sdkStep sdkVal rvVal splitAfterColon
  by_cases h1 : "sdk:".data.isPrefixOf line
  · have hc : line.contains ':' := prefix_contains_colon (by decide) h1
    have h2 : ¬ "runtime-version".data.isPrefixOf line :=
      fun h2 => not_both_sdk_rv _ ⟨h1, h2⟩
    simp only [if_pos h1, if_neg h2, if_pos hc]
    rfl
  · simp only [if_neg h1]
    by_cases h2 : "runtime-version".data.isPrefixOf line
    · have hc : line.contains ':' := hcr h2
      simp only [if_pos h2, if_pos hc]
      rfl
    · simp only [if_neg h2]
      rfl

theorem ucReadyAt_zero (u c : Option Str) (l : Str) (rest : List Str) :
    ucReadyAt u c (l :: rest) 0
      = (truthyB (applyUpd u (urlVal l)) && truthyB (applyUpd c (commitVal l))) := by
  unfold ucReadyAt
  rw [List.take_succ_cons, List.take_zero]
  rfl

theorem ucReadyAt_succ (u c : Option Str) (l : Str) (rest : List Str) (k : Nat) :
    ucReadyAt u c (l :: rest) (k + 1)
      = ucReadyAt (applyUpd u (urlVal l)) (applyUpd c (commitVal l)) rest k := by
  unfold ucReadyAt
  rw [List.take_succ_cons]
  rfl

theorem sdkReadyAt_zero (n v : Option Str) (l : Str) (rest : List Str) :
    sdkReadyAt n v (l :: rest) 0
      = (truthyB (applyUpd n (sdkVal l)) && truthyB (applyUpd v (rvVal l))) := by
  unfold sdkReadyAt
  rw [List.take_succ_cons, List.take_zero]
  rfl

theorem sdkReadyAt_succ (n v : Option Str) (l : Str) (rest : List Str) (k : Nat) :
    sdkReadyAt n v (l :: rest) (k + 1)
      = sdkReadyAt (applyUpd n (sdkVal l)) (applyUpd v (rvVal l)) rest k := by
  unfold sdkReadyAt
  rw [List.take_succ_cons]
  rfl

theorem ucScan_ok_of_ready (lines : List Str) : ∀ (u c : Option Str) (k : Nat),
    k < lines.length → ucReadyAt u c lines k →
    (∀ j, j < k → ucReadyAt u c lines j = false) →
    ∃ us cs, updLast u urlVal (lines.take (k + 1)) = some us ∧
      updLast c commitVal (lines.take (k + 1)) = some cs ∧
      us ≠ [] ∧ cs ≠ [] ∧ ucScan u c lines = .ok ⟨us, cs⟩ := by
  induction lines with
  | nil =>
    intro u c k hk
    exact absurd hk (by simp)
  | cons l rest ih =>
    intro u c k hk hready hmin
    have hstep : ucScan u c (l :: rest)
        = match (applyUpd u (urlVal l), applyUpd c (commitVal l)) with
          | (some us, some cs) =>
            if us ≠ [] ∧ cs ≠ [] then .ok ⟨us, cs⟩ else ucScan (some us) (some cs) rest
          | (u2, c2) => ucScan u2 c2 rest := by
      conv_lhs => rw [ucScan]
      rw [ucStep_eq]
    cases k with
    | zero =>
      rw [ucReadyAt_zero] at hready
      cases hu1 : applyUpd u (urlVal l) with
      | none => rw [hu1] at hready; exact absurd hready (by simp [truthyB])
      | some us =>
        cases hc1 : applyUpd c (commitVal l) with
        | none => rw [hu1, hc1] at hready; exact absurd hready (by simp [truthyB])
        | some cs =>
          rw [hu1, hc1] at hready
          simp only [truthyB, Bool.and_eq_true, decide_eq_true_eq] at hready
          refine ⟨us, cs, ?_, ?_, hready.1, hready.2, ?_⟩
          · rw [List.take_succ_cons, List.take_zero]
            exact hu1
          · rw [List.take_succ_cons, List.take_zero]
            exact hc1
          · rw [hstep, hu1, hc1]
            exact if_pos hready
    | succ k2 =>
      have h0 : ucReadyAt u c (l :: rest) 0 = false := hmin 0 (Nat.succ_pos k2)
      rw [ucReadyAt_zero] at h0
      rw [ucReadyAt_succ] at hready
      have hk2 : k2 < rest.length := by simpa using hk
      have hmin2 : ∀ j, j < k2 →
          ucReadyAt (applyUpd u (urlVal l)) (applyUpd c (commitVal l)) rest j = false := by
        intro j hj
        have hj1 := hmin (j + 1) (by omega)
        rw [ucReadyAt_succ] at hj1
        exact hj1
      obtain ⟨us, cs, h1, h2, h3, h4, h5⟩ := ih _ _ k2 hk2 hready hmin2
      refine ⟨us, cs, ?_, ?_, h3, h4, ?_⟩
      · rw [List.take_succ_cons]
        exact h1
      · rw [List.take_succ_cons]
        exact h2
      · rw [hstep]
        cases hu1 : applyUpd u (urlVal l) with
        | none =>
          rw [hu1] at h5
          exact h5
        | some us1 =>
          cases hc1 : applyUpd c (commitVal l) with
          | none =>
            rw [hu1, hc1] at h5
            exact h5
          | some cs1 =>
            rw [hu1, hc1] at h0 h5
            have hcond : ¬(us1 ≠ [] ∧ cs1 ≠ []) := by
              intro hb
              simp [truthyB, hb.1, hb.2] at h0
            show (if us1 ≠ [] ∧ cs1 ≠ [] then Except.ok ⟨us1, cs1⟩
              else ucScan (some us1) (some cs1) rest) = Except.ok ⟨us, cs⟩
            rw [if_neg hcond]
            exact h5

theorem ucScan_err_of_never (lines : List Str) : ∀ (u c : Option Str),
    (∀ k, k < lines.length → ucReadyAt u c lines k = false) →
    ucScan u c lines =
      .error (.lookupError "url or commit not found in main mediathekview source".data) := by
  induction lines with
  | nil => intro u c _; rfl
  | cons l rest ih =>
    intro u c hnever
    have h0 := hnever 0 (Nat.succ_pos rest.length)
    rw [ucReadyAt_zero] at h0
    have hstep : ucScan u c (l :: rest)
        = match (applyUpd u (urlVal l), applyUpd c (commitVal l)) with
          | (some us, some cs) =>
            if us ≠ [] ∧ cs ≠ [] then .ok ⟨us, cs⟩ else ucScan (some us) (some cs) rest
          | (u2, c2) => ucScan u2 c2 rest := by
      conv_lhs => rw [ucScan]
      rw [ucStep_eq]
    have hrest : ∀ k, k < rest.length →
        ucReadyAt (applyUpd u (urlVal l)) (applyUpd c (commitVal l)) rest k = false := by
      intro k hk
      have := hnever (k + 1) (by simp only [List.length_cons]; omega)
      rw [ucReadyAt_succ] at this
      exact this
    rw [hstep]
    cases hu1 : applyUpd u (urlVal l) with
    | none => exact ih _ _ (hu1 ▸ hrest)
    | some us1 =>
      cases hc1 : applyUpd c (commitVal l) with
      | none => exact ih _ _ (hu1 ▸ hc1 ▸ hrest)
      | some cs1 =>
        rw [hu1, hc1] at h0
        have hcond : ¬(us1 ≠ [] ∧ cs1 ≠ []) := by
          intro hb
          simp [truthyB, hb.1, hb.2] at h0
        show (if us1 ≠ [] ∧ cs1 ≠ [] then Except.ok ⟨us1, cs1⟩
          else ucScan (some us1) (some cs1) rest) = _
        rw [if_neg hcond]
        exact ih _ _ (hu1 ▸ hc1 ▸ hrest)

theorem sdkScan_ok_of_ready (lines : List Str) : ∀ (n v : Option Str) (k : Nat),
    (∀ line ∈ lines, "runtime-version".data.isPrefixOf line → line.contains ':') →
    k < lines.length → sdkReadyAt n v lines k →
    (∀ j, j < k → sdkReadyAt n v lines j = false) →
    ∃ ns vs, updLast n sdkVal (lines.take (k + 1)) = some ns ∧
      updLast v rvVal (lines.take (k + 1)) = some vs ∧
      ns ≠ [] ∧ vs ≠ [] ∧ sdkScan n v lines = .ok ⟨ns, vs⟩ := by
  induction lines with
  | nil =>
    intro n v k _ hk
    exact absurd hk (by simp)
  | cons l rest ih =>
    intro n v k hcr hk hready hmin
    have hcrl : "runtime-version".data.isPrefixOf l → l.contains ':' :=
      hcr l (by simp)
    have hcrr : ∀ line ∈ rest, "runtime-version".data.isPrefixOf line → line.contains ':' :=
      fun line hline => hcr line (by simp [hline])
    have hstep : sdkScan n v (l :: rest)
        = match applyUpd n (sdkVal l), applyUpd v (rvVal l) with
          | some ns, some vs =>
            if ns ≠ [] ∧ vs ≠ [] then .ok ⟨ns, vs⟩ else sdkScan (some ns) (some vs) rest
          | n2, v2 => sdkScan n2 v2 rest := by
      conv_lhs => rw [sdkScan]
      rw [sdkStep_eq n v l hcrl]
    cases k with
    | zero =>
      rw [sdkReadyAt_zero] at hready
      cases hu1 : applyUpd n (sdkVal l) with
      | none => rw [hu1] at hready; exact absurd hready (by simp [truthyB])
      | some ns =>
        cases hc1 : applyUpd v (rvVal l) with
        | none => rw [hu1, hc1] at hready; exact absurd hready (by simp [truthyB])
        | some vs =>
          rw [hu1, hc1] at hready
          simp only [truthyB, Bool.and_eq_true, decide_eq_true_eq] at hready
          refine ⟨ns, vs, ?_, ?_, hready.1, hready.2, ?_⟩
          · rw [List.take_succ_cons, List.take_zero]
            exact hu1
          · rw [List.take_succ_cons, List.take_zero]
            exact hc1
          · rw [hstep, hu1, hc1]
            exact if_pos hready
    | succ k2 =>
      have h0 : sdkReadyAt n v (l :: rest) 0 = false := hmin 0 (Nat.succ_pos k2)
      rw [sdkReadyAt_zero] at h0
      rw [sdkReadyAt_succ] at hready
      have hk2 : k2 < rest.length := by simpa using hk
      have hmin2 : ∀ j, j < k2 →
          sdkReadyAt (applyUpd n (sdkVal l)) (applyUpd v (rvVal l)) rest j = false := by
        intro j hj
        have hj1 := hmin (j + 1) (by omega)
        rw [sdkReadyAt_succ] at hj1
        exact hj1
      obtain ⟨ns, vs, h1, h2, h3, h4, h5⟩ := ih _ _ k2 hcrr hk2 hready hmin2
      refine ⟨ns, vs, ?_, ?_, h3, h4, ?_⟩
      · rw [List.take_succ_cons]
        exact h1
      · rw [List.take_succ_cons]
        exact h2
      · rw [hstep]
        cases hu1 : applyUpd n (sdkVal l) with
        | none =>
          rw [hu1] at h5
          exact h5
        | some ns1 =>
          cases hc1 : applyUpd v (rvVal l) with
          | none =>
            rw [hu1, hc1] at h5
            exact h5
          | some vs1 =>
            rw [hu1, hc1] at h0 h5
            have hcond : ¬(ns1 ≠ [] ∧ vs1 ≠ []) := by
              intro hb
              simp [truthyB, hb.1, hb.2] at h0
            show (if ns1 ≠ [] ∧ vs1 ≠ [] then Except.ok ⟨ns1, vs1⟩
              else sdkScan (some ns1) (some vs1) rest) = Except.ok ⟨ns, vs⟩
            rw [if_neg hcond]
            exact h5

theorem sdkScan_err_of_never (lines : List Str) : ∀ (n v : Option Str),
    (∀ line ∈ lines, "runtime-version".data.isPrefixOf line → line.contains ':') →
    (∀ k, k < lines.length → sdkReadyAt n v lines k = false) →
    sdkScan n v lines =
      .error (.lookupError "Failed to find sdk or runtime-version in manifest".data) := by
  induction lines with
  | nil => intro n v _ _; rfl
  | cons l rest ih =>
    intro n v hcr hnever
    have hcrl : "runtime-version".data.isPrefixOf l → l.contains ':' :=
      hcr l (by simp)
    have hcrr : ∀ line ∈ rest, "runtime-version".data.isPrefixOf line → line.contains ':' :=
      fun line hline => hcr line (by simp [hline])
    have h0 := hnever 0 (Nat.succ_pos rest.length)
    rw [sdkReadyAt_zero] at h0
    have hstep : sdkScan n v (l :: rest)
        = match applyUpd n (sdkVal l), applyUpd v (rvVal l) with
          | some ns, some vs =>
            if ns ≠ [] ∧ vs ≠ [] then .ok ⟨ns, vs⟩ else sdkScan (some ns) (some vs) rest
          | n2, v2 => sdkScan n2 v2 rest := by
      conv_lhs => rw [sdkScan]
      rw [sdkStep_eq n v l hcrl]
    have hrest : ∀ k, k < rest.length →
        sdkReadyAt (applyUpd n (sdkVal l)) (applyUpd v (rvVal l)) rest k = false := by
      intro k hk
      have := hnever (k + 1) (by simp only [List.length_cons]; omega)
      rw [sdkReadyAt_succ] at this
      exact this
    rw [hstep]
    cases hu1 : applyUpd n (sdkVal l) with
    | none => exact ih _ _ hcrr (hu1 ▸ hrest)
    | some ns1 =>
      cases hc1 : applyUpd v (rvVal l) with
      | none => exact ih _ _ hcrr (hu1 ▸ hc1 ▸ hrest)
      | some vs1 =>
        rw [hu1, hc1] at h0
        have hcond : ¬(ns1 ≠ [] ∧ vs1 ≠ []) := by
          intro hb
          simp [truthyB, hb.1, hb.2] at h0
        show (if ns1 ≠ [] ∧ vs1 ≠ [] then Except.ok ⟨ns1, vs1⟩
          else sdkScan (some ns1) (some vs1) rest) = _
        rw [if_neg hcond]
        exact ih _ _ hcrr (hu1 ▸ hc1 ▸ hrest)

/-- C2 counterexample: on the manifest `mC2`, whose only `- type: git` line
comes before the `- name: mediathekview` line, the claimed forward-only scan
raises the git-source lookup error, but `find_mediathekview_source` succeeds:
each of its three loops re-scans the whole line list from the beginning, so
the claimed continuation from the module marker does not describe the code. -/
theorem c2_counterexample :
    find_mediathekview_source_claimed mC2 = .error (.lookupError "git source not found".data) ∧
    find_mediathekview_source mC2 =
      .ok ⟨"https://example.test/repo.git".data, "abc123".data⟩ := by
  exact ⟨rfl, rfl⟩

/-- C2 (amended): `find_mediathekview_source` performs three independent
passes over the whole line list, each restarting from the beginning: the first
two are existence checks for the module marker and the git marker (in any
relative order), failing with the respective lookup errors, and the third
collects `url` and `commit` from the whole file, overwriting on every match
and returning the current values at the first index where both are non-empty;
it raises the url-or-commit lookup error when no such index exists. -/
theorem c2_three_pass_scan (m : Str) :
    ((splitlines m).any (fun l => decide (pyStrip l = nameMarker)) = false →
      find_mediathekview_source m =
        .error (.lookupError "mediathekview module not found".data)) ∧
    ((splitlines m).any (fun l => decide (pyStrip l = nameMarker)) = true →
      (splitlines m).any (fun l => decide (pyStrip l = gitMarker)) = false →
      find_mediathekview_source m = .error (.lookupError "git source not found".data)) ∧
    ((splitlines m).any (fun l => decide (pyStrip l = nameMarker)) = true →
      (splitlines m).any (fun l => decide (pyStrip l = gitMarker)) = true →
      ((∀ k, k < (splitlines m).length → ucReadyAt none none (splitlines m) k = false) →
        find_mediathekview_source m =
          .error (.lookupError "url or commit not found in main mediathekview source".data)) ∧
      (∀ k, k < (splitlines m).length → ucReadyAt none none (splitlines m) k →
        (∀ j, j < k → ucReadyAt none none (splitlines m) j = false) →
        ∃ us cs, updLast none urlVal ((splitlines m).take (k + 1)) = some us ∧
          updLast none commitVal ((splitlines m).take (k + 1)) = some cs ∧
          find_mediathekview_source m = .ok ⟨us, cs⟩)) := by
  refine ⟨?_, ?_, ?_⟩
  · intro hname
    simp only [find_mediathekview_source]
    rw [if_neg (by simp [hname])]
  · intro hname hgit
    simp only [find_mediathekview_source]
    rw [if_pos hname, if_neg (by simp [hgit])]
  · intro hname hgit
    have hfind : find_mediathekview_source m = ucScan none none (splitlines m) := by
      simp only [find_mediathekview_source]
      rw [if_pos hname, if_pos hgit]
    constructor
    · intro hnever
      rw [hfind]
      exact ucScan_err_of_never _ _ _ hnever
    · intro k hk hready hmin
      obtain ⟨us, cs, h1, h2, -, -, h5⟩ := ucScan_ok_of_ready _ _ _ k hk hready hmin
      exact ⟨us, cs, h1, h2, by rw [hfind]; exact h5⟩

/-- Witness for C2 (amended) at the manifest `mC2w`: both markers are
present, the scan becomes ready right after line index 3, and the collected
url and commit are returned. -/
theorem c2_three_pass_scan_witness :
    ((splitlines mC2w).any (fun l => decide (pyStrip l = nameMarker)) = true) ∧
    ((splitlines mC2w).any (fun l => decide (pyStrip l = gitMarker)) = true) ∧
    (3 < (splitlines mC2w).length) ∧
    (ucReadyAt none none (splitlines mC2w) 3 = true) ∧
    (∀ j, j < 3 → ucReadyAt none none (splitlines mC2w) j = false) ∧
    (∃ us cs, updLast none urlVal ((splitlines mC2w).take 4) = some us ∧
      updLast none commitVal ((splitlines mC2w).take 4) = some cs ∧
      find_mediathekview_source mC2w = .ok ⟨us, cs⟩) :=
  ⟨by decide, by decide, by decide, by decide, by decide,
    ((c2_three_pass_scan mC2w).2.2 (by decide) (by decide)).2 3
      (by decide) (by decide) (by decide)⟩

/-- C9 counterexample: on the manifest `mC9`, whose two `sdk:` lines precede
the `runtime-version` line, the claim predicts `name = "A"` (the first `sdk:`
line's value) but `FlatpakSdk.parse_from_manifest` returns `"B"`: the scan
overwrites `name` on every `sdk:` line until both values are non-empty. -/
theorem c9_counterexample :
    parse_from_manifest_claimed mC9 = .ok ⟨"A".data, "1".data⟩ ∧
    FlatpakSdk.parse_from_manifest mC9 = .ok ⟨"B".data, "1".data⟩ ∧
    ("A".data : Str) ≠ "B".data := by
  exact ⟨rfl, rfl, by decide⟩

/-- C9 (amended): on manifests whose `runtime-version`-prefixed lines all
contain a colon, `FlatpakSdk.parse_from_manifest` scans lines in order,
overwriting `name` with the value of every `sdk:`-prefixed line and `version`
with the value of every `runtime-version`-prefixed line, and returns the
current pair at the first index where both are non-empty (so each field holds
the most recent matching line's value, not necessarily the first); it raises
the lookup error when no prefix of the lines makes both non-empty. -/
theorem c9_scan_characterization (m : Str)
    (hcr : ∀ line ∈ splitlines m, "runtime-version".data.isPrefixOf line → line.contains ':') :
    ((∀ k, k < (splitlines m).length → sdkReadyAt none none (splitlines m) k = false) →
      FlatpakSdk.parse_from_manifest m =
        .error (.lookupError "Failed to find sdk or runtime-version in manifest".data)) ∧
    (∀ k, k < (splitlines m).length → sdkReadyAt none none (splitlines m) k →
      (∀ j, j < k → sdkReadyAt none none (splitlines m) j = false) →
      ∃ ns vs, updLast none sdkVal ((splitlines m).take (k + 1)) = some ns ∧
        updLast none rvVal ((splitlines m).take (k + 1)) = some vs ∧
        FlatpakSdk.parse_from_manifest m = .ok ⟨ns, vs⟩) := by
  constructor
  · intro hnever
    exact sdkScan_err_of_never _ _ _ hcr hnever
  · intro k hk hready hmin
    obtain ⟨ns, vs, h1, h2, -, -, h5⟩ := sdkScan_ok_of_ready _ _ _ k hcr hk hready hmin
    exact ⟨ns, vs, h1, h2, h5⟩

/-- Witness for C9 (amended) at the manifest `mC9w`: the scan becomes ready
right after line index 2 and returns the collected name and version. -/
theorem c9_scan_characterization_witness :
    (∀ line ∈ splitlines mC9w, "runtime-version".data.isPrefixOf line → line.contains ':') ∧
    (2 < (splitlines mC9w).length) ∧
    (sdkReadyAt none none (splitlines mC9w) 2 = true) ∧
    (∀ j, j < 2 → sdkReadyAt none none (splitlines mC9w) j = false) ∧
    (∃ ns vs, updLast none sdkVal ((splitlines mC9w).take 3) = some ns ∧
      updLast none rvVal ((splitlines mC9w).take 3) = some vs ∧
      FlatpakSdk.parse_from_manifest mC9w = .ok ⟨ns, vs⟩) :=
  ⟨by decide, by decide, by decide, by decide,
    (c9_scan_characterization mC9w (by decide)).2 2 (by decide) (by decide) (by decide)⟩
